import Mathlib

/-!
# Verification of the openclaw-feishu outbound delivery core

Shallow embedding of the Feishu channel adapter's delivery core:

* `FeishuStream` — the per-turn streaming update controller
  (`src/reply-dispatcher.ts`, class `FeishuStream`): debounced card
  updates, a single in-flight creation guard, and finalization.
* `deliver` — the non-streamed final delivery path (render-mode
  selection, sequential chunked sends).
* `shouldUseCard` — the auto render-mode decision (two regular
  expressions over the final text).
* the typing-indicator stop callback.
* the pending-history buffer flow of `handleFeishuMessage` (`bot.ts`).
* `getMessageFeishu` and `listMessagesFeishu` (`send.ts`).

TypeScript numbers standing for `Date.now()` timestamps are modelled as
`Nat`; network effects are modelled by explicit call traces plus Boolean
oracles for each call's success, and `setTimeout` by an explicit pending
slot fired by a dedicated event, which matches the single-threaded event
loop semantics of the source.
-/

namespace Feishu

/-- `STREAM_UPDATE_INTERVAL_MS` from the source: the debounce interval
between streaming card updates. -/
def STREAM_UPDATE_INTERVAL_MS : Nat := 400

/-- A network call issued by the streaming controller.
`createCard c s` is `sendCardFeishu` with `createSimpleTextCard c s`;
`updateCard mid c s` is `updateCardFeishu` on message `mid` with
`createSimpleTextCard c s`.  The `streaming` flag is the card's
`streaming_mode` (false marks the message as done). -/
inductive NetCall where
  | createCard (content : String) (streaming : Bool)
  | updateCard (mid : Nat) (content : String) (streaming : Bool)
deriving DecidableEq, Repr

/-- The mutable fields of class `FeishuStream`.
`initContent` is `some c` exactly when `initializationPromise` is
non-null, `c` being the content captured by the creating `update` call.
`waiters` holds (in arrival order) the contents of `update()` calls that
are awaiting the in-flight creation promise.
`pendingUpdate = some (t, c)` is the single scheduled `setTimeout`
due at time `t`, carrying content `c`. -/
structure StreamState where
  messageId : Option Nat := none
  lastContent : String := ""
  lastUpdateTime : Nat := 0
  pendingUpdate : Option (Nat × String) := none
  isFinalized : Bool := false
  initContent : Option String := none
  waiters : List String := []
deriving DecidableEq, Repr

/-- `FeishuStream.performUpdate`: no-op without a live message or after
finalization; otherwise issues one in-progress card update; on success
records `lastContent` and `lastUpdateTime` (the completion time `now`),
on failure the error is logged and the state is unchanged. -/
def performUpdate (s : StreamState) (content : String) (now : Nat)
    (ok : Bool) : StreamState × List NetCall :=
  match s.messageId with
  | none => (s, [])
  | some mid =>
    if s.isFinalized then (s, [])
    else if ok then
      ({ s with lastContent := content, lastUpdateTime := now },
        [NetCall.updateCard mid content true])
    else (s, [NetCall.updateCard mid content true])

/-- Lines 95–107 of `FeishuStream.update`: apply the update immediately
when the debounce budget allows (or on a final update), otherwise
schedule a single pending update at the remaining wait time; when a
pending update already exists, do nothing (the arriving content is
dropped). -/
def scheduleOrSend (s : StreamState) (content : String) (now : Nat)
    (isFinal : Bool) (ok : Bool) : StreamState × List NetCall :=
  let timeSinceLast := now - s.lastUpdateTime
  if isFinal || STREAM_UPDATE_INTERVAL_MS ≤ timeSinceLast then
    performUpdate s content now ok
  else if s.pendingUpdate.isNone then
    let due := now + (STREAM_UPDATE_INTERVAL_MS - timeSinceLast)
    ({ s with pendingUpdate := some (due, content) }, [])
  else (s, [])

/-- `FeishuStream.update(content)` up to its first suspend point:
ignored after finalization or for content identical to the last sent;
with no live message it either joins the in-flight creation's waiters or
starts the single creation (issuing the create call); with a live
message it runs the debounced update path.  `ok` is the outcome of the
network update should one be issued immediately. -/
def arriveStep (s : StreamState) (content : String) (now : Nat)
    (ok : Bool) : StreamState × List NetCall :=
  if s.isFinalized then (s, [])
  else if content == s.lastContent then (s, [])
  else
    match s.messageId with
    | none =>
      match s.initContent with
      | some _ => ({ s with waiters := s.waiters ++ [content] }, [])
      | none =>
        ({ s with initContent := some content },
          [NetCall.createCard content true])
    | some _ => scheduleOrSend s content now false ok

/-- Resumption of the `update()` calls that awaited the creation
promise: each re-checks `messageId` (returning when creation failed) and
otherwise proceeds to the debounced update path.  A resumed waiter finds
an elapsed time of zero (the successful creation just set
`lastUpdateTime := now`), so it only ever schedules or is dropped; the
success flag passed to `scheduleOrSend` is therefore immaterial. -/
def resumeWaiters (s : StreamState) : List String → Nat →
    StreamState × List NetCall
  | [], _ => (s, [])
  | c :: rest, now =>
    match s.messageId with
    | none => ({ s with waiters := [] }, [])
    | some _ =>
      let (s1, k1) := scheduleOrSend s c now false true
      let (s2, k2) := resumeWaiters s1 rest now
      (s2, k1 ++ k2)

/-- Settlement of the creation promise (`sendCardFeishu` resolving in
the async initializer): on success (`mid = some m`) record the live
message id, the created content and the send time; in all cases the
promise slot is cleared (the `finally` block) and the waiting `update()`
calls resume in order. -/
def initDoneStep (s : StreamState) (mid : Option Nat) (now : Nat) :
    StreamState × List NetCall :=
  let s1 :=
    match mid with
    | some m =>
      { s with messageId := some m,
               lastContent := s.initContent.getD s.lastContent,
               lastUpdateTime := now,
               initContent := none }
    | none => { s with initContent := none }
  let ws := s1.waiters
  resumeWaiters { s1 with waiters := [] } ws now

/-- The scheduled `setTimeout` callback firing: clears the pending slot
and performs the update with the captured content.  A fire with no
pending slot (a cancelled timer) is a no-op. -/
def timerFireStep (s : StreamState) (now : Nat) (ok : Bool) :
    StreamState × List NetCall :=
  match s.pendingUpdate with
  | none => (s, [])
  | some (_, c) => performUpdate { s with pendingUpdate := none } c now ok

/-- `FeishuStream.finalize(content)`: no-op when already finalized;
cancels any pending scheduled update; when a live message exists it
issues one last update with `streaming_mode: false` and — only when that
call succeeds — sets `isFinalized`; without a live message no network
call is made. -/
def finalizeStep (s : StreamState) (content : String) (ok : Bool) :
    StreamState × List NetCall :=
  if s.isFinalized then (s, [])
  else
    let s1 := { s with pendingUpdate := none }
    match s1.messageId with
    | none => (s1, [])
    | some mid =>
      if ok then
        ({ s1 with isFinalized := true },
          [NetCall.updateCard mid content false])
      else (s1, [NetCall.updateCard mid content false])

/-- One event of a streaming turn, in event-loop order. -/
inductive StreamEv where
  | arrive (content : String) (now : Nat) (ok : Bool)
  | initDone (mid : Option Nat) (now : Nat)
  | timerFire (now : Nat) (ok : Bool)
  | finalizeCall (content : String) (ok : Bool)
deriving DecidableEq, Repr

/-- Process one event of a streaming turn. -/
def stepEv (s : StreamState) : StreamEv → StreamState × List NetCall
  | .arrive c now ok => arriveStep s c now ok
  | .initDone mid now => initDoneStep s mid now
  | .timerFire now ok => timerFireStep s now ok
  | .finalizeCall c ok => finalizeStep s c ok

/-- Run a streaming turn over a list of events, collecting every network
call issued, in order. -/
def runEvents (s : StreamState) : List StreamEv → StreamState × List NetCall
  | [] => (s, [])
  | e :: rest =>
    let (s1, k1) := stepEv s e
    let (s2, k2) := runEvents s1 rest
    (s2, k1 ++ k2)

/-- Number of message-creation calls in a trace. -/
def createCount (calls : List NetCall) : Nat :=
  (calls.filter fun c =>
    match c with
    | NetCall.createCard _ _ => true
    | _ => false).length

/-- Whether some creation attempt in the event list failed. -/
def hasFailedInit (tr : List StreamEv) : Bool :=
  tr.any fun e =>
    match e with
    | StreamEv.initDone none _ => true
    | _ => false

/-! ## Render-mode decision (`shouldUseCard` and the `deliver` branch) -/

/-- The backtick character, U+0060. -/
def tick : Char := Char.ofNat 96

/-- Does the list start with a triple-backtick fence? -/
def startsWithFence : List Char → Bool
  | c1 :: c2 :: c3 :: _ => c1 = tick && c2 = tick && c3 = tick
  | _ => false

/-- Does some suffix start with a triple-backtick fence? -/
def hasFence : List Char → Bool
  | [] => false
  | c :: rest => startsWithFence (c :: rest) || hasFence rest

/-- JavaScript `/\x60\x60\x60[\s\S]*?\x60\x60\x60/.test`: the text holds
two disjoint triple-backtick fences (an opening fence and, after it, a
closing one). -/
def containsFencedCode : List Char → Bool
  | [] => false
  | c :: rest =>
    (startsWithFence (c :: rest) && hasFence (rest.drop 2)) ||
      containsFencedCode rest

/-- Characters the JavaScript `.` does not match (line terminators). -/
def isLineTerm (c : Char) : Bool :=
  c = '\n' || c = '\r' || c = Char.ofNat 0x2028 || c = Char.ofNat 0x2029

/-- The `[\r\n]` character class. -/
def isCRLF (c : Char) : Bool := c = '\r' || c = '\n'

/-- The `[-:| ]` character class of the table-separator row. -/
def isSepChar (c : Char) : Bool := c = '-' || c = ':' || c = '|' || c = ' '

/-- Matcher for `p+` followed by a continuation `k`: consume one or more
characters satisfying `p` from the front, then let `k` accept the rest
(all stopping points are tried, as regex backtracking does). -/
def afterPlus (p : Char → Bool) (k : List Char → Bool) : List Char → Bool
  | [] => false
  | c :: rest => p c && (k rest || afterPlus p k rest)

/-- Does the list start with a `|`?  (The closing `\|` of a row.) -/
def headIsPipe : List Char → Bool
  | [] => false
  | c :: _ => c = '|'

/-- Continuation `\|[-:| ]+\|`: the separator row. -/
def sepRowAt : List Char → Bool
  | [] => false
  | c :: r => c = '|' && afterPlus isSepChar headIsPipe r

/-- Continuation `[\r\n]+\|[-:| ]+\|`: the line break then the
separator row. -/
def nlThenSepRow (cs : List Char) : Bool :=
  afterPlus isCRLF sepRowAt cs

/-- Continuation `\|[\r\n]+\|[-:| ]+\|`: the header row's closing pipe
then the rest. -/
def pipeThenNlSep : List Char → Bool
  | [] => false
  | c :: r => c = '|' && nlThenSepRow r

/-- Whole table pattern `\|.+\|[\r\n]+\|[-:| ]+\|` anchored at the list
head. -/
def tableAt : List Char → Bool
  | [] => false
  | c :: r => c = '|' && afterPlus (fun d => !isLineTerm d) pipeThenNlSep r

/-- JavaScript `/\|.+\|[\r\n]+\|[-:| ]+\|/.test`: the table pattern
matches at some position. -/
def containsTablePattern : List Char → Bool
  | [] => false
  | c :: rest => tableAt (c :: rest) || containsTablePattern rest

/-- `shouldUseCard` from `reply-dispatcher.ts`: detect markdown elements
(fenced code blocks, tables) that benefit from card rendering. -/
def shouldUseCard (text : String) : Bool :=
  containsFencedCode text.data || containsTablePattern text.data

/-- The render-mode decision of `deliver`:
`renderMode === "card" || (renderMode === "auto" && shouldUseCard(text))`,
where `renderMode` is the configured mode defaulting to `"auto"`. -/
def useCardFor (renderMode : String) (text : String) : Bool :=
  renderMode == "card" || (renderMode == "auto" && shouldUseCard text)

/-! ## Non-streamed delivery (`deliver` in `reply-dispatcher.ts`) -/

/-- External collaborators and configuration of one `deliver` call:
the SDK chunker `chunkTextWithMode` (with its resolved limit and mode),
the SDK `convertMarkdownTables` (with its resolved table mode), the
configured `renderMode` (absent means the `"auto"` default), and a
success oracle for the i-th transport send of this delivery. -/
structure DeliverEnv where
  chunkFn : String → List String
  convertTables : String → String
  renderMode : Option String
  sendOk : Nat → Bool

/-- Observable events of one `deliver` call.  A transport send is split
into its start and the completion of its await, so that sequentiality is
expressible; `isCard` tells the card branch (`sendMarkdownCardFeishu`)
from the plain-text branch (`sendMessageFeishu`). -/
inductive DEv where
  | finalizeStream (content : String)
  | sendStart (i : Nat) (isCard : Bool) (chunk : String)
  | sendDone (i : Nat)
deriving DecidableEq, Repr

/-- The `for (const chunk of chunks) await send(...)` loop: each send is
started only after the previous send's await completed; a rejected send
throws out of `deliver` (second component `true`), abandoning the
remaining chunks. -/
def seqSendLoop (isCard : Bool) (sendOk : Nat → Bool) :
    List String → Nat → List DEv × Bool
  | [], _ => ([], false)
  | c :: rest, i =>
    if sendOk i then
      let (tr, err) := seqSendLoop isCard sendOk rest (i + 1)
      (DEv.sendStart i isCard c :: DEv.sendDone i :: tr, err)
    else ([DEv.sendStart i isCard c], true)

/-- The `!text.trim()` guard of `deliver`: the trimmed text is empty
exactly when every character of the text is whitespace. -/
def blank (text : String) : Bool :=
  text.data.all Char.isWhitespace

/-- `deliver` from `reply-dispatcher.ts`: empty or whitespace-only text
returns at once; an active stream is finalized with the text; otherwise
the render mode picks the card or the plain branch and the chunks are
sent sequentially.  Returns the event trace and whether an error was
raised out of `deliver`. -/
def deliver (env : DeliverEnv) (hasStream : Bool)
    (payloadText : Option String) : List DEv × Bool :=
  let text := payloadText.getD ""
  if blank text then ([], false)
  else if hasStream then ([DEv.finalizeStream text], false)
  else
    let renderMode := env.renderMode.getD "auto"
    if useCardFor renderMode text then
      seqSendLoop true env.sendOk (env.chunkFn text) 0
    else
      seqSendLoop false env.sendOk (env.chunkFn (env.convertTables text)) 0

/-- The chunk list a given `deliver` call sends (the source's `chunks`
local in the taken branch). -/
def deliverSegs (env : DeliverEnv) (payloadText : Option String) :
    List String :=
  let text := payloadText.getD ""
  if blank text then []
  else if useCardFor (env.renderMode.getD "auto") text then env.chunkFn text
  else env.chunkFn (env.convertTables text)

/-- The chunk carried by each send start, in trace order. -/
def sentChunks (tr : List DEv) : List String :=
  tr.filterMap fun e =>
    match e with
    | DEv.sendStart _ _ c => some c
    | _ => none

/-- Trace check: no transport send starts while another is in flight,
and every completion matches the send that is in flight.  `inflight` is
the index of the send currently awaited, if any. -/
def noOverlap : List DEv → Option Nat → Bool
  | [], _ => true
  | DEv.sendStart i _ _ :: rest, none => noOverlap rest (some i)
  | DEv.sendStart _ _ _ :: _, some _ => false
  | DEv.sendDone i :: rest, some j => i == j && noOverlap rest none
  | DEv.sendDone _ :: _, none => false
  | DEv.finalizeStream _ :: rest, f => noOverlap rest f

/-! ## Typing-indicator stop callback

The dispatcher keeps `typingState : TypingIndicatorState | null`; the
`stop` callback of `createTypingCallbacks` reads

```
if (!typingState) return;
await removeTypingIndicator({ cfg, state: typingState });
typingState = null;
```

`removeTypingIndicator` lives in `src/typing.ts`, which is not among the
provided sources.  Modelled from the spec: per §6 a transport removal
call reports success or failure per call, and per §4.3 removal can fail
(its error reaching the `onStopError` logger); a failing call therefore
raises out of the `await`.  Its outcome is the Boolean `removeOk`. -/

/-- Result of one `stop()` call: the new `typingState`, the removal
calls issued (identified by the indicator handle), and whether an error
propagated to the `onStopError` handler. -/
structure StopResult where
  typingState : Option Nat
  removeCalls : List Nat
  errored : Bool
deriving DecidableEq, Repr

/-- The `stop` typing callback from `reply-dispatcher.ts`: no-op without
an active indicator; otherwise awaits the removal call and clears
`typingState` only when that await returns (an exception skips the
reset). -/
def typingStop (typingState : Option Nat) (removeOk : Bool) : StopResult :=
  match typingState with
  | none => { typingState := none, removeCalls := [], errored := false }
  | some st =>
    if removeOk then { typingState := none, removeCalls := [st], errored := false }
    else { typingState := some st, removeCalls := [st], errored := true }

/-! ## Pending-history buffer around a group turn (`handleFeishuMessage`) -/

/-- `HistoryEntry` from the plugin SDK, as recorded by
`handleFeishuMessage` for suppressed group messages. -/
structure HistoryEntry where
  sender : String
  body : String
  timestamp : Nat
  messageId : String
deriving DecidableEq, Repr

/-- The `chatHistories` map, keyed by conversation (chat) id. -/
def HistoryMap : Type := String → List HistoryEntry

/-- Modelled from the spec: plugin-sdk `buildPendingHistoryContextFromMap`
(§4.5 `buildReplayPrefix`), which is not under `src/`: renders all
buffered entries for the key, oldest first, through `formatEntry`,
concatenated ahead of `currentMessage`; does not mutate the buffer. -/
def buildPendingHistoryContextFromMap (m : HistoryMap) (key : String)
    (_limit : Nat) (currentMessage : String)
    (formatEntry : HistoryEntry → String) : String :=
  ((m key).map formatEntry).foldr (· ++ ·) currentMessage

/-- Modelled from the spec: plugin-sdk `clearHistoryEntriesIfEnabled`
(§4.5 `clear`), which is not under `src/`: empties the buffer for the
key if the limit is positive. -/
def clearHistoryEntriesIfEnabled (m : HistoryMap) (key : String)
    (limit : Nat) : HistoryMap :=
  if 0 < limit then fun k => if k = key then [] else m k else m

/-- Modelled from the spec: plugin-sdk `recordPendingHistoryEntryIfEnabled`
(§4.5 `record`), which is not under `src/`: appends the entry and evicts
oldest entries down to the limit; no-op when the limit is not
positive. -/
def recordPendingHistoryEntryIfEnabled (m : HistoryMap) (key : String)
    (limit : Nat) (e : HistoryEntry) : HistoryMap :=
  if 0 < limit then
    fun k =>
      if k = key then (m key ++ [e]).drop ((m key).length + 1 - limit)
      else m k
  else m

/-- Observable steps of the history-relevant part of a group turn. -/
inductive TurnEv where
  | dispatched (body : String)
  | clearedHistory (key : String)
deriving DecidableEq, Repr

/-- Outcome of a group turn: its event trace and the history map after
it. -/
structure TurnOutcome where
  events : List TurnEv
  map : HistoryMap

/-- The history flow of `handleFeishuMessage` (bot.ts) for a group turn
that reaches dispatch: the replay-eligible buffer for the chat is
composed into the combined body (lines 441–456) before
`dispatchReplyFromConfig` receives it (line 490); when dispatch returns
normally the buffer for the key is cleared (lines 499–505); a thrown
dispatch lands in the surrounding catch, which only logs, leaving the
map untouched.  `dispatchOk` is whether `dispatchReplyFromConfig`
resolved. -/
def handleGroupDispatch (m : HistoryMap) (key : String) (limit : Nat)
    (body : String) (formatEntry : HistoryEntry → String)
    (dispatchOk : Bool) : TurnOutcome :=
  let combined := buildPendingHistoryContextFromMap m key limit body formatEntry
  if dispatchOk then
    { events := [TurnEv.dispatched combined, TurnEv.clearedHistory key],
      map := clearHistoryEntriesIfEnabled m key limit }
  else
    { events := [TurnEv.dispatched combined], map := m }

/-! ## `getMessageFeishu` (`send.ts`)

The Feishu client call `client.im.message.get` is a transport effect: it
either throws or yields a response.  `JSON.parse` of a message body is
external; the oracle `jsonTextField raw` is `some t` exactly when
`JSON.parse(raw)` succeeds and yields an object whose `text` field is
truthy (the only fact the source reads from the parse), and `jsParseInt`
stands for JavaScript `parseInt(s, 10)`. -/

/-- The sender object of a raw message item. -/
structure RawSender where
  id : Option String
  idType : Option String
  senderType : Option String
deriving DecidableEq, Repr

/-- A raw item of a `message.get` response (all fields optional, as in
the source's response type). -/
structure RawMsgItem where
  messageId : Option String
  chatId : Option String
  msgType : Option String
  bodyContent : Option String
  sender : Option RawSender
  createTime : Option String
deriving DecidableEq, Repr

/-- A `message.get` response: its `code` and `data?.items`. -/
structure GetMsgResponse where
  code : Option Int
  items : List RawMsgItem
deriving DecidableEq, Repr

/-- A transport call either yields a response or throws. -/
inductive Transport (α : Type) where
  | ok (a : α)
  | thrown
deriving DecidableEq, Repr

/-- `FeishuMessageInfo` from `send.ts`. -/
structure FeishuMessageInfo where
  messageId : String
  chatId : String
  senderId : Option String
  senderOpenId : Option String
  content : String
  contentType : String
  createTime : Option Int
deriving DecidableEq, Repr

/-- `getMessageFeishu`: throws when the channel is not configured;
otherwise returns `none` when the transport call throws, when the
response code is not 0, or when the response carries no item; otherwise
builds the populated `FeishuMessageInfo` record. -/
def getMessageFeishu (configured : Bool) (messageId : String)
    (resp : Transport GetMsgResponse)
    (jsonTextField : String → Option String)
    (jsParseInt : String → Int) :
    Except String (Option FeishuMessageInfo) :=
  if !configured then .error "Feishu channel not configured"
  else
    match resp with
    | .thrown => .ok none
    | .ok r =>
      if r.code ≠ some 0 then .ok none
      else
        match r.items.head? with
        | none => .ok none
        | some item =>
          let raw := item.bodyContent.getD ""
          let content :=
            if item.msgType = some "text" then (jsonTextField raw).getD raw
            else raw
          .ok (some {
            messageId := item.messageId.getD messageId,
            chatId := item.chatId.getD "",
            senderId := item.sender.bind (·.id),
            senderOpenId :=
              if (item.sender.bind (·.idType)) = some "open_id" then
                item.sender.bind (·.id)
              else none,
            content := content,
            contentType := item.msgType.getD "text",
            createTime :=
              match item.createTime with
              | some s => if s = "" then none else some (jsParseInt s)
              | none => none })

/-! ## `listMessagesFeishu` (`send.ts`) -/

/-- A raw item of a `message.list` page. -/
structure RawListItem where
  messageId : Option String
  senderId : Option String
  senderType : Option String
  msgType : Option String
  bodyContent : Option String
  createTime : Option String
  deleted : Option Bool
deriving DecidableEq, Repr

/-- One `message.list` response page. -/
structure ListPage where
  code : Int
  msg : Option String
  items : List RawListItem
  hasMore : Option Bool
  pageToken : Option String
deriving DecidableEq, Repr

/-- `FeishuHistoryMessage` from `send.ts`. -/
structure FeishuHistoryMessage where
  messageId : String
  senderId : String
  senderType : String
  content : String
  contentType : String
  createTime : Int
  deleted : Option Bool
deriving DecidableEq, Repr

/-- `ListMessagesResult` from `send.ts`. -/
structure ListMessagesResult where
  messages : List FeishuHistoryMessage
  hasMore : Bool
  pageToken : Option String
  total : Nat
deriving DecidableEq, Repr

/-- The per-item content conversion of `listMessagesFeishu`:
`JSON.parse` failure keeps the raw content; otherwise text extracts the
truthy `text` field and the known media types map to fixed placeholders.
`parseOk raw` is whether `JSON.parse(raw)` succeeds, `jsonTextField` as
in `getMessageFeishu`. -/
def listItemContent (parseOk : String → Bool)
    (jsonTextField : String → Option String) (msgType : Option String)
    (raw : String) : String :=
  if !parseOk raw then raw
  else if msgType = some "text" then (jsonTextField raw).getD raw
  else if msgType = some "image" then "[图片]"
  else if msgType = some "file" then "[文件]"
  else if msgType = some "audio" then "[语音]"
  else if msgType = some "video" then "[视频]"
  else if msgType = some "sticker" then "[表情]"
  else if msgType = some "interactive" then "[卡片消息]"
  else if msgType = some "share_chat" then "[分享群聊]"
  else if msgType = some "share_user" then "[分享用户]"
  else raw

/-- Conversion of one raw list item into a `FeishuHistoryMessage`
(`messages.push({...})` in the source). -/
def convertListItem (parseOk : String → Bool)
    (jsonTextField : String → Option String) (jsParseInt : String → Int)
    (item : RawListItem) : FeishuHistoryMessage :=
  { messageId := item.messageId.getD "",
    senderId := item.senderId.getD "",
    senderType := item.senderType.getD "",
    content := listItemContent parseOk jsonTextField item.msgType
      (item.bodyContent.getD ""),
    contentType := item.msgType.getD "text",
    createTime :=
      match item.createTime with
      | some s => if s = "" then 0 else jsParseInt s
      | none => 0,
    deleted := item.deleted }

/-- The inner `for (const item of items)` loop: stop as soon as `count`
messages are accumulated, else convert and push. -/
def pushItems (parseOk : String → Bool)
    (jsonTextField : String → Option String) (jsParseInt : String → Int)
    (count : Nat) (acc : List FeishuHistoryMessage) :
    List RawListItem → List FeishuHistoryMessage
  | [] => acc
  | item :: rest =>
    if count ≤ acc.length then acc
    else
      pushItems parseOk jsonTextField jsParseInt count
        (acc ++ [convertListItem parseOk jsonTextField jsParseInt item]) rest

/-- Whether a JavaScript `string | undefined` page token is falsy
(`undefined` or the empty string), which ends pagination. -/
def tokenFalsy : Option String → Bool
  | none => true
  | some s => s = ""

/-- The `while (hasMore && messages.length < count)` pagination loop.
`pages` is the sequence of responses the transport will yield; running
out of responses while another page is required models a transport that
never answers and is reported as an error, as is a non-zero page code
(the source throws there). -/
def listLoop (parseOk : String → Bool)
    (jsonTextField : String → Option String) (jsParseInt : String → Int)
    (count : Nat) : List ListPage → List FeishuHistoryMessage →
    Option String → Bool → Except String ListMessagesResult
  | pages, acc, token, hasMore =>
    if !(hasMore && acc.length < count) then
      .ok { messages := acc, hasMore := hasMore, pageToken := token,
            total := acc.length }
    else
      match pages with
      | [] => .error "transport yielded no response"
      | p :: rest =>
        if p.code ≠ 0 then
          .error ("Feishu list messages failed: " ++ (p.msg.getD ""))
        else
          let acc1 := pushItems parseOk jsonTextField jsParseInt count acc p.items
          let hasMore1 := p.hasMore.getD false
          let token1 := p.pageToken
          let hasMore2 := if tokenFalsy token1 then false else hasMore1
          listLoop parseOk jsonTextField jsParseInt count rest acc1 token1 hasMore2

/-- `listMessagesFeishu`: throws when the channel is not configured;
otherwise runs the pagination loop from an empty accumulator, the
caller's page token and `hasMore = true`.  (`count` defaults to 200 at
the call site; the derived `page_size = min 50 count` only shapes the
requests, which the page oracle already reflects.) -/
def listMessagesFeishu (configured : Bool) (count : Nat)
    (pageToken : Option String) (pages : List ListPage)
    (parseOk : String → Bool) (jsonTextField : String → Option String)
    (jsParseInt : String → Int) : Except String ListMessagesResult :=
  if !configured then .error "Feishu channel not configured"
  else listLoop parseOk jsonTextField jsParseInt count pages [] pageToken true

/-! ## Claim C8: empty or whitespace-only final payloads are a no-op -/

/-- C8.  For every final delivery whose payload text is empty or
whitespace-only after trimming, `deliver` returns without issuing any
transport call (empty event trace) and without raising an error — in any
configuration, stream state and send-outcome environment. -/
theorem c8_empty_payload_noop (env : DeliverEnv) (hasStream : Bool)
    (payloadText : Option String)
    (h : blank (payloadText.getD "") = true) :
    deliver env hasStream payloadText = ([], false) := by
  unfold deliver
  simp [h]

/-- C8 witness: the all-blank payload `"   "` is delivered as nothing. -/
theorem c8_empty_payload_noop_witness :
    blank ((some "   " : Option String).getD "") = true ∧
      deliver { chunkFn := fun s => [s], convertTables := id,
                renderMode := none, sendOk := fun _ => true }
        false (some "   ") = ([], false) :=
  ⟨by decide,
    c8_empty_payload_noop
      { chunkFn := fun s => [s], convertTables := id,
        renderMode := none, sendOk := fun _ => true }
      false (some "   ") (by decide)⟩

/-! ## Claim C6: the typing-indicator stop callback -/

/-- C6 counterexample: with an active indicator (handle 5) and a
failing removal call, `stop()` issues the removal but `typingState`
is NOT reset — the coordinator stays Active, contradicting the claim
that the state resets to Idle even when the removal fails. -/
theorem c6_stop_counterexample :
    (typingStop (some 5) false).removeCalls = [5] ∧
      (typingStop (some 5) false).typingState ≠ none ∧
      (typingStop (some 5) false).errored = true := by
  decide

/-- C6 amended.  `stop()` is a no-op when no indicator is active;
otherwise it issues exactly one removal call and resets the state to
Idle only when the removal succeeds: when the removal call fails, the
error goes to the stop-error logger and the indicator state remains
Active. -/
theorem c6_stop_amended (st : Nat) (ok : Bool) :
    typingStop none ok =
        { typingState := none, removeCalls := [], errored := false } ∧
      (typingStop (some st) ok).removeCalls = [st] ∧
      (typingStop (some st) ok).typingState =
        (if ok then none else some st) ∧
      (typingStop (some st) ok).errored = !ok := by
  cases ok <;> simp [typingStop]

/-! ## Claim C4: history replay around a group dispatch -/

/-- Folding string concatenation over a base splits into the fold over
the empty string, appended to the base. -/
theorem foldr_append_string (l : List String) (b : String) :
    l.foldr (· ++ ·) b = l.foldr (· ++ ·) "" ++ b := by
  induction l with
  | nil => simp [String.empty_append]
  | cons a l ih =>
    simp only [List.foldr_cons, ih, String.append_assoc]

/-- C4.  For a group turn with a non-empty pending-history buffer for
the conversation key and a positive history limit: the replay text of
the buffered entries is composed in front of the outgoing body handed
to dispatch (the first and only dispatch event precedes any clearing),
the buffer for the key is cleared exactly when the dispatch completes
successfully, and the whole map is left unchanged when the dispatch
fails. -/
theorem c4_history_replay (m : HistoryMap) (key : String) (limit : Nat)
    (body : String) (formatEntry : HistoryEntry → String)
    (dispatchOk : Bool) (hlim : 0 < limit) (hne : m key ≠ []) :
    (handleGroupDispatch m key limit body formatEntry dispatchOk).events =
        TurnEv.dispatched
            (((m key).map formatEntry).foldr (· ++ ·) "" ++ body) ::
          (if dispatchOk then [TurnEv.clearedHistory key] else []) ∧
      (handleGroupDispatch m key limit body formatEntry dispatchOk).map key =
        (if dispatchOk then [] else m key) ∧
      (dispatchOk = false →
        (handleGroupDispatch m key limit body formatEntry dispatchOk).map = m) := by
  have hcomb : buildPendingHistoryContextFromMap m key limit body formatEntry =
      ((m key).map formatEntry).foldr (· ++ ·) "" ++ body := by
    unfold buildPendingHistoryContextFromMap
    exact foldr_append_string _ _
  cases dispatchOk <;>
    simp [handleGroupDispatch, clearHistoryEntriesIfEnabled, hlim, hcomb]

/-- C4 witness: one buffered entry under key `"g1"`, limit 3, failing
dispatch — the hypotheses hold at this input and the theorem applies. -/
theorem c4_history_replay_witness :
    (0 : Nat) < 3 ∧
      (fun k => if k = "g1" then
          [({ sender := "u", body := "hi", timestamp := 1,
              messageId := "m1" } : HistoryEntry)]
        else [] : HistoryMap) "g1" ≠ [] ∧
      ((handleGroupDispatch
          (fun k => if k = "g1" then
            [{ sender := "u", body := "hi", timestamp := 1,
               messageId := "m1" }] else [])
          "g1" 3 "now" (fun e => e.body) false).events =
        TurnEv.dispatched
            ((((fun k => if k = "g1" then
                [({ sender := "u", body := "hi", timestamp := 1,
                    messageId := "m1" } : HistoryEntry)]
              else [] : HistoryMap) "g1").map (fun e => e.body)).foldr
              (· ++ ·) "" ++ "now") ::
          (if false then [TurnEv.clearedHistory "g1"] else []) ∧
      (handleGroupDispatch
          (fun k => if k = "g1" then
            [{ sender := "u", body := "hi", timestamp := 1,
               messageId := "m1" }] else [])
          "g1" 3 "now" (fun e => e.body) false).map "g1" =
        (if false then [] else
          (fun k => if k = "g1" then
            [({ sender := "u", body := "hi", timestamp := 1,
                messageId := "m1" } : HistoryEntry)]
          else [] : HistoryMap) "g1") ∧
      (false = false →
        (handleGroupDispatch
            (fun k => if k = "g1" then
              [{ sender := "u", body := "hi", timestamp := 1,
                 messageId := "m1" }] else [])
            "g1" 3 "now" (fun e => e.body) false).map =
          fun k => if k = "g1" then
            [{ sender := "u", body := "hi", timestamp := 1,
               messageId := "m1" }] else [])) :=
  ⟨by decide, by decide,
    c4_history_replay
      (fun k => if k = "g1" then
        [{ sender := "u", body := "hi", timestamp := 1,
           messageId := "m1" }] else [])
      "g1" 3 "now" (fun e => e.body) false (by decide) (by decide)⟩

/-! ## Claim C5: sequential, ordered chunk sends -/

/-- When every send succeeds, the send loop raises no error. -/
theorem seqSendLoop_no_error (isCard : Bool) (sendOk : Nat → Bool)
    (hok : ∀ i, sendOk i = true) :
    ∀ (cs : List String) (i : Nat),
      (seqSendLoop isCard sendOk cs i).2 = false := by
  intro cs
  induction cs with
  | nil => intro i; rfl
  | cons c rest ih =>
    intro i
    simp only [seqSendLoop, hok i, if_true]
    exact ih (i + 1)

/-- When every send succeeds, the send loop sends exactly the chunk
list, in its original order. -/
theorem seqSendLoop_chunks (isCard : Bool) (sendOk : Nat → Bool)
    (hok : ∀ i, sendOk i = true) :
    ∀ (cs : List String) (i : Nat),
      sentChunks (seqSendLoop isCard sendOk cs i).1 = cs := by
  intro cs
  induction cs with
  | nil => intro i; rfl
  | cons c rest ih =>
    intro i
    simp only [seqSendLoop, hok i, if_true]
    simp [sentChunks] at ih ⊢
    exact ih (i + 1)

/-- When every send succeeds, the send loop's trace never starts a send
while another is in flight, and each completion matches the in-flight
send. -/
theorem seqSendLoop_noOverlap (isCard : Bool) (sendOk : Nat → Bool)
    (hok : ∀ i, sendOk i = true) :
    ∀ (cs : List String) (i : Nat),
      noOverlap (seqSendLoop isCard sendOk cs i).1 none = true := by
  intro cs
  induction cs with
  | nil => intro i; rfl
  | cons c rest ih =>
    intro i
    simp only [seqSendLoop, hok i, if_true]
    simp only [noOverlap, beq_self_eq_true, Bool.true_and]
    exact ih (i + 1)

/-- C5.  For every non-streamed final delivery (no active stream, text
not all-whitespace is implicit: the empty case sends nothing), with all
transport sends succeeding: `deliver` issues its sends strictly
sequentially — no send starts before the previous send's await
completed — carrying exactly the branch's chunk list in its original
order, and raises no error. -/
theorem c5_sequential_sends (env : DeliverEnv) (payloadText : Option String)
    (hok : ∀ i, env.sendOk i = true) :
    sentChunks (deliver env false payloadText).1 = deliverSegs env payloadText ∧
      noOverlap (deliver env false payloadText).1 none = true ∧
      (deliver env false payloadText).2 = false := by
  unfold deliver deliverSegs
  by_cases hb : blank (payloadText.getD "") = true
  · simp [hb, sentChunks, noOverlap]
  · simp only [Bool.not_eq_true] at hb
    simp only [hb, Bool.false_eq_true, if_false, if_neg]
    by_cases hc : useCardFor (env.renderMode.getD "auto") (payloadText.getD "") = true
    · simp only [hc, if_true]
      exact ⟨seqSendLoop_chunks _ _ hok _ 0,
        seqSendLoop_noOverlap _ _ hok _ 0, seqSendLoop_no_error _ _ hok _ 0⟩
    · simp only [Bool.not_eq_true] at hc
      simp only [hc, Bool.false_eq_true, if_false]
      exact ⟨seqSendLoop_chunks _ _ hok _ 0,
        seqSendLoop_noOverlap _ _ hok _ 0, seqSendLoop_no_error _ _ hok _ 0⟩

/-- C5 witness: a two-chunk plain-text delivery with all sends
succeeding. -/
theorem c5_sequential_sends_witness :
    (∀ i, ({ chunkFn := fun s => [s.take 5, s.drop 5], convertTables := id,
             renderMode := none, sendOk := fun _ => true } : DeliverEnv).sendOk i
        = true) ∧
      (sentChunks (deliver
            { chunkFn := fun s => [s.take 5, s.drop 5], convertTables := id,
              renderMode := none, sendOk := fun _ => true }
            false (some "hello world")).1 =
          deliverSegs
            { chunkFn := fun s => [s.take 5, s.drop 5], convertTables := id,
              renderMode := none, sendOk := fun _ => true }
            (some "hello world") ∧
        noOverlap (deliver
            { chunkFn := fun s => [s.take 5, s.drop 5], convertTables := id,
              renderMode := none, sendOk := fun _ => true }
            false (some "hello world")).1 none = true ∧
        (deliver
            { chunkFn := fun s => [s.take 5, s.drop 5], convertTables := id,
              renderMode := none, sendOk := fun _ => true }
            false (some "hello world")).2 = false) :=
  ⟨fun _ => rfl,
    c5_sequential_sends
      { chunkFn := fun s => [s.take 5, s.drop 5], convertTables := id,
        renderMode := none, sendOk := fun _ => true }
      (some "hello world") (fun _ => rfl)⟩

/-! ## Claim C1: `finalize` -/

/-- C1 counterexample: a turn whose card was created (state Live with
message 7) and whose final `updateCardFeishu` call fails.  `finalize`
does issue the one done-marked update, but the controller is NOT left in
the Finalized state — `isFinalized` is set only after a successful
update — contradicting the claim's "regardless of whether that last
network call succeeds". -/
theorem c1_finalize_counterexample :
    (runEvents {} [StreamEv.arrive "a" 0 true,
        StreamEv.initDone (some 7) 0,
        StreamEv.finalizeCall "done" false]).1.isFinalized = false ∧
      (runEvents {} [StreamEv.arrive "a" 0 true,
          StreamEv.initDone (some 7) 0,
          StreamEv.finalizeCall "done" false]).2 =
        [NetCall.createCard "a" true, NetCall.updateCard 7 "done" false] := by
  decide

/-- C1 amended.  For a not-yet-finalized controller, `finalize(content)`
always cancels the pending scheduled update; when a live message exists
it issues exactly one last network update carrying the final content
with the done marker (`streaming_mode: false`) and transitions to
Finalized exactly when that call succeeds; when the controller has no
live message yet (Empty, or still Initializing) it issues no network
call and stays un-finalized. -/
theorem c1_finalize_amended (s : StreamState) (content : String)
    (ok : Bool) (h : s.isFinalized = false) :
    (finalizeStep s content ok).1.pendingUpdate = none ∧
      (finalizeStep s content ok).2 =
        (match s.messageId with
          | some mid => [NetCall.updateCard mid content false]
          | none => []) ∧
      (finalizeStep s content ok).1.isFinalized = (s.messageId.isSome && ok) := by
  unfold finalizeStep
  cases hm : s.messageId <;> cases ok <;> simp [h, hm]

/-- C1 amended witness: a Live controller with a failing final call. -/
theorem c1_finalize_amended_witness :
    ({ messageId := some 7, lastContent := "a" } : StreamState).isFinalized
        = false ∧
      ((finalizeStep { messageId := some 7, lastContent := "a" } "done"
          false).1.pendingUpdate = none ∧
        (finalizeStep { messageId := some 7, lastContent := "a" } "done"
            false).2 =
          (match ({ messageId := some 7, lastContent := "a" } :
              StreamState).messageId with
            | some mid => [NetCall.updateCard mid "done" false]
            | none => []) ∧
        (finalizeStep { messageId := some 7, lastContent := "a" } "done"
            false).1.isFinalized =
          (({ messageId := some 7, lastContent := "a" } :
            StreamState).messageId.isSome && false)) :=
  ⟨rfl, c1_finalize_amended { messageId := some 7, lastContent := "a" }
    "done" false rfl⟩

/-! ## Claim C2: debounce coalescing -/

/-- C2 counterexample: a Live stream (created at time 0, live at time
1000 with content `"a"`), then `update("b")` at 1100 and `update("c")`
at 1200, both within one 400ms debounce interval of the last send, then
the scheduled timer fires at 1400.  Exactly one network update is issued
in the window — but it carries `"b"`, the content of the EARLIER call;
the later `"c"` was dropped (the pending content is not replaced),
contradicting the claim that the window's update carries the content of
the later call. -/
theorem c2_debounce_counterexample :
    (runEvents {} [StreamEv.arrive "a" 0 true,
        StreamEv.initDone (some 1) 1000,
        StreamEv.arrive "b" 1100 true,
        StreamEv.arrive "c" 1200 true,
        StreamEv.timerFire 1400 true]).2 =
      [NetCall.createCard "a" true, NetCall.updateCard 1 "b" true] := by
  decide

/-- C2 amended.  For a Live controller with no pending update: two
`update` calls arriving within one debounce interval of the last sent
update issue no immediate network call; the first schedules the single
pending update (due one interval after the last send) carrying ITS
content, the second is dropped entirely (the pending content is not
replaced); when the timer fires, the one network update of the window
carries the first (earlier) call's content. -/
theorem c2_debounce_amended (s : StreamState) (mid : Nat)
    (c1 c2 : String) (t1 t2 t3 : Nat) (ok1 ok2 ok3 : Bool)
    (hmid : s.messageId = some mid) (hfin : s.isFinalized = false)
    (hpend : s.pendingUpdate = none) (hle : s.lastUpdateTime ≤ t1)
    (hw1 : t1 - s.lastUpdateTime < STREAM_UPDATE_INTERVAL_MS)
    (hw2 : t2 - s.lastUpdateTime < STREAM_UPDATE_INTERVAL_MS)
    (hc1 : c1 ≠ s.lastContent) (hc2 : c2 ≠ s.lastContent) :
    (arriveStep s c1 t1 ok1).2 = [] ∧
      (arriveStep s c1 t1 ok1).1 =
        { s with pendingUpdate := some (s.lastUpdateTime + STREAM_UPDATE_INTERVAL_MS, c1) } ∧
      arriveStep (arriveStep s c1 t1 ok1).1 c2 t2 ok2 =
        ((arriveStep s c1 t1 ok1).1, []) ∧
      (timerFireStep (arriveStep (arriveStep s c1 t1 ok1).1 c2 t2 ok2).1
          t3 ok3).2 = [NetCall.updateCard mid c1 true] := by
  have hdue : t1 + (STREAM_UPDATE_INTERVAL_MS - (t1 - s.lastUpdateTime)) =
      s.lastUpdateTime + STREAM_UPDATE_INTERVAL_MS := by omega
  have h1 : arriveStep s c1 t1 ok1 =
      ({ s with pendingUpdate := some (s.lastUpdateTime + STREAM_UPDATE_INTERVAL_MS, c1) }, []) := by
    unfold arriveStep scheduleOrSend
    simp [hfin, hmid, hpend, hc1, Nat.not_le_of_lt hw1, hdue]
  have h2 : arriveStep (arriveStep s c1 t1 ok1).1 c2 t2 ok2 =
      ((arriveStep s c1 t1 ok1).1, []) := by
    rw [h1]
    unfold arriveStep scheduleOrSend
    simp [hfin, hmid, hc2, Nat.not_le_of_lt hw2]
  refine ⟨by rw [h1], by rw [h1], h2, ?_⟩
  rw [h2, h1]
  unfold timerFireStep performUpdate
  cases ok3 <;> simp [hmid, hfin]

/-- C2 amended witness: last send at 1000 with content `"a"`, updates
`"b"` at 1100 and `"c"` at 1200, timer firing at 1400. -/
theorem c2_debounce_amended_witness :
    (({ messageId := some 1, lastContent := "a", lastUpdateTime := 1000 } :
          StreamState).messageId = some 1 ∧
        1100 - 1000 < STREAM_UPDATE_INTERVAL_MS) ∧
      (timerFireStep (arriveStep (arriveStep
          { messageId := some 1, lastContent := "a", lastUpdateTime := 1000 }
          "b" 1100 true).1 "c" 1200 true).1 1400 true).2 =
        [NetCall.updateCard 1 "b" true] :=
  ⟨⟨rfl, by decide⟩,
    (c2_debounce_amended
      { messageId := some 1, lastContent := "a", lastUpdateTime := 1000 }
      1 "b" "c" 1100 1200 1400 true true true rfl rfl rfl (by decide)
      (by decide) (by decide) (by decide) (by decide)).2.2.2⟩

/-! ## Claim C3: at most one creation call per turn -/

/-- The creation guard of the controller: a creation is either in
flight (`initializationPromise` non-null) or already succeeded
(`messageId` set); `update()` starts a creation only when the guard is
down. -/
def hasCreationGuard (s : StreamState) : Bool :=
  s.initContent.isSome || s.messageId.isSome

/-- Creation budget still available in a state: none once the guard is
up. -/
def createBudget (s : StreamState) : Nat :=
  if hasCreationGuard s then 0 else 1

theorem createCount_append (a b : List NetCall) :
    createCount (a ++ b) = createCount a + createCount b := by
  simp [createCount, List.filter_append]

/-- `performUpdate` issues no creation call and leaves the creation
guard's fields unchanged. -/
theorem performUpdate_noCreate (s : StreamState) (c : String) (n : Nat)
    (ok : Bool) :
    createCount (performUpdate s c n ok).2 = 0 ∧
      (performUpdate s c n ok).1.messageId = s.messageId ∧
      (performUpdate s c n ok).1.initContent = s.initContent := by
  cases hm : s.messageId with
  | none => simp [performUpdate, hm, createCount]
  | some mid =>
    by_cases hf : s.isFinalized = true
    · simp [performUpdate, hm, hf, createCount]
    · simp only [Bool.not_eq_true] at hf
      cases ok <;> simp [performUpdate, hm, hf, createCount]

/-- `scheduleOrSend` issues no creation call and leaves the creation
guard's fields unchanged. -/
theorem scheduleOrSend_noCreate (s : StreamState) (c : String) (n : Nat)
    (isFinal ok : Bool) :
    createCount (scheduleOrSend s c n isFinal ok).2 = 0 ∧
      (scheduleOrSend s c n isFinal ok).1.messageId = s.messageId ∧
      (scheduleOrSend s c n isFinal ok).1.initContent = s.initContent := by
  unfold scheduleOrSend
  by_cases h1 : (isFinal || decide
      (STREAM_UPDATE_INTERVAL_MS ≤ n - s.lastUpdateTime)) = true
  · simpa [h1] using performUpdate_noCreate s c n ok
  · simp only [Bool.not_eq_true] at h1
    by_cases h2 : s.pendingUpdate.isNone = true <;>
      simp [h1, h2, createCount]

/-- Resuming the creation promise's waiters issues no creation call and
leaves the creation guard's fields unchanged. -/
theorem resumeWaiters_noCreate (ws : List String) :
    ∀ (s : StreamState) (now : Nat),
      createCount (resumeWaiters s ws now).2 = 0 ∧
        (resumeWaiters s ws now).1.messageId = s.messageId ∧
        (resumeWaiters s ws now).1.initContent = s.initContent := by
  induction ws with
  | nil => intro s now; simp [resumeWaiters, createCount]
  | cons c rest ih =>
    intro s now
    have hs := scheduleOrSend_noCreate s c now false true
    have hr := ih (scheduleOrSend s c now false true).1 now
    cases hm : s.messageId with
    | none => simp [resumeWaiters, hm, createCount]
    | some mid =>
      simp only [resumeWaiters, hm, createCount_append]
      exact ⟨by omega, by rw [hr.2.1, hs.2.1, hm], by rw [hr.2.2, hs.2.2]⟩

/-- The settlement of a successful creation issues no creation call and
leaves the controller with a live `messageId`. -/
theorem initDoneStep_noCreate (s : StreamState) (m : Nat) (now : Nat) :
    createCount (initDoneStep s (some m) now).2 = 0 ∧
      (initDoneStep s (some m) now).1.messageId = some m := by
  have hr := resumeWaiters_noCreate s.waiters
    { s with messageId := some m,
             lastContent := s.initContent.getD s.lastContent,
             lastUpdateTime := now, initContent := none,
             waiters := [] } now
  exact ⟨hr.1, hr.2.1⟩

/-- Each event keeps the creation budget: the creation calls it issues,
plus the budget still available afterwards, never exceed the budget
available before — as long as the event is not the settlement of a
failed creation. -/
theorem stepEv_createBudget (s : StreamState) (e : StreamEv)
    (h : ∀ now, e ≠ StreamEv.initDone none now) :
    createCount (stepEv s e).2 + createBudget (stepEv s e).1 ≤
      createBudget s := by
  cases e with
  | arrive c now ok =>
    by_cases hf : s.isFinalized = true
    · simp [stepEv, arriveStep, hf, createCount]
    · simp only [Bool.not_eq_true] at hf
      by_cases hc : c = s.lastContent
      · simp [stepEv, arriveStep, hf, hc, createCount]
      · cases hm : s.messageId with
        | none =>
          cases hi : s.initContent with
          | none =>
            simp [stepEv, arriveStep, hf, hc, hm, hi, createCount,
              createBudget, hasCreationGuard]
          | some d =>
            simp [stepEv, arriveStep, hf, hc, hm, hi, createCount,
              createBudget, hasCreationGuard]
        | some mid =>
          have hs := scheduleOrSend_noCreate s c now false ok
          have hb : createBudget (scheduleOrSend s c now false ok).1 =
              createBudget s := by
            unfold createBudget hasCreationGuard
            rw [hs.2.1, hs.2.2]
          simp only [stepEv, arriveStep, hf, hc, hm]
          simp only [Bool.false_eq_true, if_false, beq_iff_eq, hc,
            not_false_eq_true, if_neg]
          omega
  | initDone mid now =>
    cases mid with
    | none => exact absurd rfl (h now)
    | some m =>
      have hd := initDoneStep_noCreate s m now
      have hb : createBudget (initDoneStep s (some m) now).1 = 0 := by
        unfold createBudget hasCreationGuard
        rw [hd.2]
        simp
      show createCount (initDoneStep s (some m) now).2 +
          createBudget (initDoneStep s (some m) now).1 ≤ createBudget s
      rw [hd.1, hb]
      exact Nat.zero_le _
  | timerFire now ok =>
    cases hp : s.pendingUpdate with
    | none => simp [stepEv, timerFireStep, hp, createCount]
    | some tc =>
      obtain ⟨t, c⟩ := tc
      have hs := performUpdate_noCreate { s with pendingUpdate := none }
        c now ok
      have hb : createBudget (performUpdate { s with pendingUpdate := none }
          c now ok).1 = createBudget s := by
        unfold createBudget hasCreationGuard
        rw [hs.2.1, hs.2.2]
      simp only [stepEv, timerFireStep, hp]
      omega
  | finalizeCall c ok =>
    by_cases hf : s.isFinalized = true
    · simp [stepEv, finalizeStep, hf, createCount]
    · simp only [Bool.not_eq_true] at hf
      cases hm : s.messageId with
      | none =>
        simp [stepEv, finalizeStep, hf, hm, createCount, createBudget,
          hasCreationGuard]
      | some mid =>
        cases ok <;>
          simp [stepEv, finalizeStep, hf, hm, createCount, createBudget,
            hasCreationGuard]

/-- Over a whole turn, the creation calls issued are bounded by the
initial creation budget. -/
theorem runEvents_createCount (tr : List StreamEv) :
    ∀ s : StreamState, hasFailedInit tr = false →
      createCount (runEvents s tr).2 ≤ createBudget s := by
  induction tr with
  | nil => intro s _; simp [runEvents, createCount]
  | cons e rest ih =>
    intro s hfail
    have hrest : hasFailedInit rest = false := by
      unfold hasFailedInit at hfail ⊢
      simp only [List.any_cons, Bool.or_eq_false_iff] at hfail
      exact hfail.2
    have hnot : ∀ now, e ≠ StreamEv.initDone none now := by
      intro now he
      unfold hasFailedInit at hfail
      simp only [List.any_cons, Bool.or_eq_false_iff] at hfail
      rw [he] at hfail
      simp at hfail
    have hstep := stepEv_createBudget s e hnot
    have hrec := ih (stepEv s e).1 hrest
    unfold runEvents
    simp only [createCount_append]
    omega

/-- C3 counterexample: `update("a")` starts the creation; the creation
fails; a later `update("b")` then issues a SECOND creation call — the
turn issues two message-creation network calls, contradicting the
claim's "at most one message-creation network call is ever issued". -/
theorem c3_creation_counterexample :
    createCount (runEvents {} [StreamEv.arrive "a" 0 true,
        StreamEv.initDone none 1,
        StreamEv.arrive "b" 2 true]).2 = 2 := by
  decide

/-- C3 amended.  For every streaming turn in which no creation attempt
fails, at most one message-creation network call is issued: an
`update()` arriving while the creation is in flight joins the waiters of
the single in-flight creation promise instead of creating, and once the
creation succeeded the recorded `messageId` routes every later update
through the update path.  (Only a FAILED creation re-opens the create
path, which the original claim ruled out.) -/
theorem c3_single_creation (tr : List StreamEv)
    (h : hasFailedInit tr = false) :
    createCount (runEvents {} tr).2 ≤ 1 := by
  have := runEvents_createCount tr {} h
  simpa [createBudget, hasCreationGuard] using this

/-- C3 amended witness: a turn with one successful creation and a later
update. -/
theorem c3_single_creation_witness :
    hasFailedInit [StreamEv.arrive "a" 0 true,
        StreamEv.initDone (some 1) 5,
        StreamEv.arrive "b" 600 true] = false ∧
      createCount (runEvents {} [StreamEv.arrive "a" 0 true,
          StreamEv.initDone (some 1) 5,
          StreamEv.arrive "b" 600 true]).2 ≤ 1 :=
  ⟨by decide,
    c3_single_creation [StreamEv.arrive "a" 0 true,
      StreamEv.initDone (some 1) 5,
      StreamEv.arrive "b" 600 true] (by decide)⟩

/-! ## Claim C9: `getMessageFeishu` never raises -/

/-- C9.  For a configured Feishu channel, `getMessageFeishu` never
raises: it always returns normally (`.ok`), yields `none` exactly when
the transport call throws, the response code is not zero, or the
response carries no message item, and yields a populated message-info
record in every remaining case. -/
theorem c9_getMessage_total (messageId : String)
    (resp : Transport GetMsgResponse)
    (jsonTextField : String → Option String) (jsParseInt : String → Int) :
    (∃ v, getMessageFeishu true messageId resp jsonTextField jsParseInt =
        .ok v) ∧
      (getMessageFeishu true messageId resp jsonTextField jsParseInt =
          .ok none ↔
        (resp = .thrown ∨
          ∃ r, resp = .ok r ∧ (r.code ≠ some 0 ∨ r.items = []))) ∧
      (∀ r, resp = .ok r → r.code = some 0 → r.items ≠ [] →
        ∃ info, getMessageFeishu true messageId resp jsonTextField
          jsParseInt = .ok (some info)) := by
  cases resp with
  | thrown => simp [getMessageFeishu]
  | ok r =>
    by_cases hcode : r.code = some 0
    · cases hitems : r.items with
      | nil => simp [getMessageFeishu, hcode, hitems]
      | cons item rest => simp [getMessageFeishu, hcode, hitems]
    · simp [getMessageFeishu, hcode]

/-- A concrete one-item `message.get` response used as witness input. -/
def sampleGetItem : RawMsgItem :=
  { messageId := some "m", chatId := some "c", msgType := some "text",
    bodyContent := some "raw", sender := none, createTime := none }

/-- A concrete successful `message.get` response. -/
def sampleGetResp : GetMsgResponse :=
  { code := some 0, items := [sampleGetItem] }

/-- C9 witness: a successful one-item response — the populated-record
case of the theorem applies. -/
theorem c9_getMessage_total_witness :
    (Transport.ok sampleGetResp = Transport.ok sampleGetResp ∧
        sampleGetResp.code = some 0 ∧ sampleGetResp.items ≠ []) ∧
      ∃ info, getMessageFeishu true "m" (Transport.ok sampleGetResp)
        (fun _ => none) (fun _ => 0) = .ok (some info) :=
  ⟨⟨rfl, rfl, by decide⟩,
    (c9_getMessage_total "m" (Transport.ok sampleGetResp)
        (fun _ => none) (fun _ => 0)).2.2 sampleGetResp rfl rfl (by decide)⟩

/-! ## Claim C10: `listMessagesFeishu` count bound and `total` -/

/-- The inner item loop never grows the accumulator past `count`. -/
theorem pushItems_length_le (parseOk : String → Bool)
    (jsonTextField : String → Option String) (jsParseInt : String → Int)
    (count : Nat) :
    ∀ (items : List RawListItem) (acc : List FeishuHistoryMessage),
      acc.length ≤ count →
      (pushItems parseOk jsonTextField jsParseInt count acc items).length ≤
        count := by
  intro items
  induction items with
  | nil => intro acc h; simpa [pushItems] using h
  | cons item rest ih =>
    intro acc h
    by_cases hfull : count ≤ acc.length
    · simpa [pushItems, hfull] using h
    · have hlt : acc.length < count := Nat.lt_of_not_le hfull
      simp only [pushItems, hfull, if_neg, not_false_eq_true, if_false]
      exact ih _ (by simpa using hlt)

/-- Whenever the pagination loop returns normally, it returns at most
`count` messages and reports their number as `total`. -/
theorem listLoop_count (parseOk : String → Bool)
    (jsonTextField : String → Option String) (jsParseInt : String → Int)
    (count : Nat) :
    ∀ (pages : List ListPage) (acc : List FeishuHistoryMessage)
      (token : Option String) (hasMore : Bool) (r : ListMessagesResult),
      acc.length ≤ count →
      listLoop parseOk jsonTextField jsParseInt count pages acc token
          hasMore = .ok r →
      r.messages.length ≤ count ∧ r.total = r.messages.length := by
  intro pages
  induction pages with
  | nil =>
    intro acc token hasMore r hacc hrun
    rw [listLoop] at hrun
    by_cases hcond : (!(hasMore && decide (acc.length < count))) = true
    · rw [if_pos hcond] at hrun
      injection hrun with h
      subst h
      exact ⟨hacc, rfl⟩
    · rw [if_neg hcond] at hrun
      exact absurd hrun (by simp)
  | cons p rest ih =>
    intro acc token hasMore r hacc hrun
    rw [listLoop] at hrun
    by_cases hcond : (!(hasMore && decide (acc.length < count))) = true
    · rw [if_pos hcond] at hrun
      injection hrun with h
      subst h
      exact ⟨hacc, rfl⟩
    · rw [if_neg hcond] at hrun
      by_cases hcode : p.code = 0
      · rw [if_neg (by simp [hcode])] at hrun
        exact ih _ _ _ r
          (pushItems_length_le parseOk jsonTextField jsParseInt count
            p.items acc hacc) hrun
      · rw [if_pos (by simp [hcode])] at hrun
        exact absurd hrun (by simp)

/-- C10.  For a configured Feishu channel and a positive requested
count, whenever `listMessagesFeishu` returns a result it holds at most
`count` messages, and its `total` field equals the length of the
returned message list — the number fetched by this call, not the number
of messages in the chat (unfetched pages never enter the result). -/
theorem c10_list_count (count : Nat) (pageToken : Option String)
    (pages : List ListPage) (parseOk : String → Bool)
    (jsonTextField : String → Option String) (jsParseInt : String → Int)
    (r : ListMessagesResult) (hpos : 0 < count)
    (hrun : listMessagesFeishu true count pageToken pages parseOk
        jsonTextField jsParseInt = .ok r) :
    r.messages.length ≤ count ∧ r.total = r.messages.length := by
  have hrun' : listLoop parseOk jsonTextField jsParseInt count pages []
      pageToken true = .ok r := by
    simpa [listMessagesFeishu] using hrun
  exact listLoop_count parseOk jsonTextField jsParseInt count pages []
    pageToken true r (Nat.zero_le count) hrun'

/-- A raw list item with only a message id, as witness input. -/
def sampleListItem (i : String) : RawListItem :=
  { messageId := some i, senderId := none, senderType := none,
    msgType := none, bodyContent := none, createTime := none,
    deleted := none }

/-- A successful two-item page claiming more data is available. -/
def sampleListPage : ListPage :=
  { code := 0, msg := none,
    items := [sampleListItem "a", sampleListItem "b"],
    hasMore := some true, pageToken := some "t" }

/-- The result the witness call computes: one message fetched, `total`
reporting that one message. -/
def sampleFetched : FeishuHistoryMessage :=
  { messageId := "a", senderId := "", senderType := "", content := "",
    contentType := "text", createTime := 0, deleted := none }

def sampleListResult : ListMessagesResult :=
  { messages := [sampleFetched], hasMore := true, pageToken := some "t",
    total := 1 }

/-- C10 witness: requesting one message from the two-item page — the
call returns one message with `total = 1` and the theorem applies. -/
theorem c10_list_count_witness :
    (0 : Nat) < 1 ∧
      listMessagesFeishu true 1 none [sampleListPage]
          (fun _ => false) (fun _ => none) (fun _ => 0) =
        .ok sampleListResult ∧
      (sampleListResult.messages.length ≤ 1 ∧
        sampleListResult.total = sampleListResult.messages.length) :=
  ⟨by decide, rfl,
    c10_list_count 1 none [sampleListPage] (fun _ => false)
      (fun _ => none) (fun _ => 0) sampleListResult (by decide) rfl⟩

/-! ## Claim C7: render-mode decision

The claim characterises the regexes in prose; the predicates below state
that prose directly (existence of the described decompositions of the
text) and are proved equivalent to the source's matchers. -/

/-- A triple-backtick fence. -/
def fence : List Char := [tick, tick, tick]

/-- The text contains a paired fenced code block: an opening
triple-backtick delimiter and, after it, a closing one. -/
def SpecFencedCode (s : String) : Prop :=
  ∃ a b r : List Char, s.data = a ++ fence ++ b ++ fence ++ r

/-- The text contains a markdown-style table: a row of pipe-delimited
cells (non-empty, within one line) immediately followed — across a line
break — by a separator row of dashes/colons/pipes/spaces. -/
def SpecMarkdownTable (s : String) : Prop :=
  ∃ a x n sep r : List Char,
    s.data = a ++ '|' :: (x ++ '|' :: (n ++ '|' :: (sep ++ '|' :: r))) ∧
      x ≠ [] ∧ (∀ c ∈ x, isLineTerm c = false) ∧
      n ≠ [] ∧ (∀ c ∈ n, isCRLF c = true) ∧
      sep ≠ [] ∧ (∀ c ∈ sep, isSepChar c = true)

theorem afterPlus_iff (p : Char → Bool) (k : List Char → Bool) :
    ∀ cs, afterPlus p k cs = true ↔
      ∃ x r, cs = x ++ r ∧ x ≠ [] ∧ (∀ c ∈ x, p c = true) ∧ k r = true := by
  intro cs
  induction cs with
  | nil =>
    simp only [afterPlus, Bool.false_eq_true, false_iff, not_exists]
    rintro x r ⟨heq, hx, -, -⟩
    exact hx (List.append_eq_nil.mp heq.symm).1
  | cons c rest ih =>
    simp only [afterPlus, Bool.and_eq_true, Bool.or_eq_true]
    constructor
    · rintro ⟨hp, hk | ha⟩
      · exact ⟨[c], rest, rfl, by simp, by simpa using hp, hk⟩
      · obtain ⟨x, r, heq, hx, hall, hk⟩ := ih.mp ha
        refine ⟨c :: x, r, by rw [heq]; rfl, by simp, ?_, hk⟩
        intro d hd
        rcases List.mem_cons.mp hd with h | h
        · rw [h]; exact hp
        · exact hall d h
    · rintro ⟨x, r, heq, hx, hall, hk⟩
      cases x with
      | nil => exact absurd rfl hx
      | cons c' x' =>
        rw [List.cons_append] at heq
        injection heq with h1 h2
        subst h1
        refine ⟨hall c (by simp), ?_⟩
        cases x' with
        | nil =>
          left
          rw [h2, List.nil_append]
          exact hk
        | cons d x'' =>
          right
          refine ih.mpr ⟨d :: x'', r, h2, by simp, ?_, hk⟩
          intro e he
          exact hall e (List.mem_cons_of_mem c he)

theorem startsWithFence_iff (cs : List Char) :
    startsWithFence cs = true ↔ ∃ r, cs = fence ++ r := by
  match cs with
  | [] => simp [startsWithFence, fence]
  | [c1] => simp [startsWithFence, fence]
  | [c1, c2] => simp [startsWithFence, fence]
  | c1 :: c2 :: c3 :: r =>
    simp only [startsWithFence, Bool.and_eq_true, decide_eq_true_eq, fence]
    constructor
    · rintro ⟨⟨h1, h2⟩, h3⟩
      exact ⟨r, by rw [h1, h2, h3]; rfl⟩
    · rintro ⟨r', heq⟩
      simp only [List.cons_append, List.nil_append, List.cons.injEq] at heq
      exact ⟨⟨heq.1, heq.2.1⟩, heq.2.2.1⟩

theorem hasFence_iff (cs : List Char) :
    hasFence cs = true ↔ ∃ a r, cs = a ++ fence ++ r := by
  induction cs with
  | nil =>
    simp only [hasFence, Bool.false_eq_true, false_iff, not_exists]
    rintro a r heq
    exact absurd (List.append_eq_nil.mp
      (List.append_eq_nil.mp heq.symm).1).2 (by simp [fence])
  | cons c rest ih =>
    simp only [hasFence, Bool.or_eq_true]
    constructor
    · rintro (h | h)
      · obtain ⟨r, hr⟩ := (startsWithFence_iff _).mp h
        exact ⟨[], r, by rw [hr]; rfl⟩
      · obtain ⟨a, r, hr⟩ := ih.mp h
        exact ⟨c :: a, r, by rw [hr]; rfl⟩
    · rintro ⟨a, r, heq⟩
      cases a with
      | nil =>
        left
        rw [List.nil_append] at heq
        exact (startsWithFence_iff _).mpr ⟨r, heq⟩
      | cons a0 a' =>
        right
        rw [List.cons_append, List.cons_append] at heq
        injection heq with h1 h2
        exact ih.mpr ⟨a', r, h2⟩

theorem containsFencedCode_iff (cs : List Char) :
    containsFencedCode cs = true ↔
      ∃ a b r, cs = a ++ fence ++ b ++ fence ++ r := by
  induction cs with
  | nil =>
    simp only [containsFencedCode, Bool.false_eq_true, false_iff, not_exists]
    rintro a b r heq
    have := List.append_eq_nil.mp (List.append_eq_nil.mp heq.symm).1
    exact absurd this.2 (by simp [fence])
  | cons c rest ih =>
    simp only [containsFencedCode, Bool.or_eq_true, Bool.and_eq_true]
    constructor
    · rintro (⟨hsf, hhf⟩ | h)
      · obtain ⟨q, hq⟩ := (startsWithFence_iff _).mp hsf
        have hdrop : rest.drop 2 = q := by
          have : c :: rest = tick :: tick :: tick :: q := by
            simpa [fence] using hq
          injection this with h1 h2
          rw [h2]
          rfl
        rw [hdrop] at hhf
        obtain ⟨b, r, hbr⟩ := (hasFence_iff _).mp hhf
        refine ⟨[], b, r, ?_⟩
        rw [List.nil_append, hq, hbr]
        simp
      · obtain ⟨a, b, r, hr⟩ := ih.mp h
        exact ⟨c :: a, b, r, by rw [hr]; rfl⟩
    · rintro ⟨a, b, r, heq⟩
      cases a with
      | nil =>
        left
        rw [List.nil_append] at heq
        have hc : c :: rest = tick :: tick :: tick :: (b ++ fence ++ r) := by
          simpa [fence] using heq
        injection hc with h1 h2
        constructor
        · apply (startsWithFence_iff _).mpr
          exact ⟨b ++ fence ++ r, by rw [h1, h2]; simp [fence]⟩
        · have hdrop : rest.drop 2 = b ++ fence ++ r := by
            rw [h2]; rfl
          rw [hdrop]
          exact (hasFence_iff _).mpr ⟨b, r, by simp⟩
      | cons a0 a' =>
        right
        rw [List.cons_append] at heq
        injection heq with h1 h2
        exact ih.mpr ⟨a', b, r, by simpa using h2⟩

theorem headIsPipe_iff (r : List Char) :
    headIsPipe r = true ↔ ∃ q, r = '|' :: q := by
  cases r with
  | nil => simp [headIsPipe]
  | cons c q =>
    simp only [headIsPipe, decide_eq_true_eq]
    constructor
    · intro h; exact ⟨q, by rw [h]⟩
    · rintro ⟨q', hq⟩
      injection hq with h1 _

theorem sepRowAt_iff (cs : List Char) :
    sepRowAt cs = true ↔
      ∃ sep r, cs = '|' :: (sep ++ '|' :: r) ∧ sep ≠ [] ∧
        ∀ c ∈ sep, isSepChar c = true := by
  cases cs with
  | nil => simp [sepRowAt]
  | cons c r0 =>
    simp only [sepRowAt, Bool.and_eq_true, decide_eq_true_eq,
      afterPlus_iff]
    constructor
    · rintro ⟨hc, x, r1, heq, hx, hall, hhead⟩
      obtain ⟨q, hq⟩ := (headIsPipe_iff _).mp hhead
      refine ⟨x, q, ?_, hx, hall⟩
      rw [hc, heq, hq]
    · rintro ⟨sep, r, heq, hsep, hall⟩
      injection heq with h1 h2
      exact ⟨h1, sep, '|' :: r, h2, hsep, hall,
        (headIsPipe_iff _).mpr ⟨r, rfl⟩⟩

theorem nlThenSepRow_iff (cs : List Char) :
    nlThenSepRow cs = true ↔
      ∃ n sep r, cs = n ++ '|' :: (sep ++ '|' :: r) ∧
        n ≠ [] ∧ (∀ c ∈ n, isCRLF c = true) ∧ sep ≠ [] ∧
        ∀ c ∈ sep, isSepChar c = true := by
  unfold nlThenSepRow
  rw [afterPlus_iff]
  constructor
  · rintro ⟨n, r1, heq, hn, hall, hsep⟩
    obtain ⟨sep, r, hr1, hsepne, hsall⟩ := (sepRowAt_iff _).mp hsep
    exact ⟨n, sep, r, by rw [heq, hr1], hn, hall, hsepne, hsall⟩
  · rintro ⟨n, sep, r, heq, hn, hall, hsepne, hsall⟩
    exact ⟨n, '|' :: (sep ++ '|' :: r), heq, hn, hall,
      (sepRowAt_iff _).mpr ⟨sep, r, rfl, hsepne, hsall⟩⟩

theorem pipeThenNlSep_iff (cs : List Char) :
    pipeThenNlSep cs = true ↔
      ∃ n sep r, cs = '|' :: (n ++ '|' :: (sep ++ '|' :: r)) ∧
        n ≠ [] ∧ (∀ c ∈ n, isCRLF c = true) ∧ sep ≠ [] ∧
        ∀ c ∈ sep, isSepChar c = true := by
  cases cs with
  | nil => simp [pipeThenNlSep]
  | cons c r0 =>
    simp only [pipeThenNlSep, Bool.and_eq_true, decide_eq_true_eq]
    rw [nlThenSepRow_iff]
    constructor
    · rintro ⟨hc, n, sep, r, heq, hn, hall, hsepne, hsall⟩
      exact ⟨n, sep, r, by rw [hc, heq], hn, hall, hsepne, hsall⟩
    · rintro ⟨n, sep, r, heq, hn, hall, hsepne, hsall⟩
      injection heq with h1 h2
      exact ⟨h1, n, sep, r, h2, hn, hall, hsepne, hsall⟩

theorem tableAt_iff (cs : List Char) :
    tableAt cs = true ↔
      ∃ x n sep r,
        cs = '|' :: (x ++ '|' :: (n ++ '|' :: (sep ++ '|' :: r))) ∧
          x ≠ [] ∧ (∀ c ∈ x, isLineTerm c = false) ∧
          n ≠ [] ∧ (∀ c ∈ n, isCRLF c = true) ∧ sep ≠ [] ∧
          ∀ c ∈ sep, isSepChar c = true := by
  cases cs with
  | nil => simp [tableAt]
  | cons c r0 =>
    simp only [tableAt, Bool.and_eq_true, decide_eq_true_eq,
      afterPlus_iff]
    constructor
    · rintro ⟨hc, x, r1, heq, hx, hall, hk⟩
      obtain ⟨n, sep, r, hr1, hn, hnall, hsepne, hsall⟩ :=
        (pipeThenNlSep_iff _).mp hk
      refine ⟨x, n, sep, r, by rw [hc, heq, hr1], hx, ?_, hn, hnall,
        hsepne, hsall⟩
      intro d hd
      have := hall d hd
      simpa using this
    · rintro ⟨x, n, sep, r, heq, hx, hall, hn, hnall, hsepne, hsall⟩
      injection heq with h1 h2
      refine ⟨h1, x, '|' :: (n ++ '|' :: (sep ++ '|' :: r)), h2, hx,
        ?_, (pipeThenNlSep_iff _).mpr ⟨n, sep, r, rfl, hn, hnall,
          hsepne, hsall⟩⟩
      intro d hd
      simpa using hall d hd

theorem containsTablePattern_iff (cs : List Char) :
    containsTablePattern cs = true ↔
      ∃ a q, cs = a ++ q ∧ tableAt q = true := by
  induction cs with
  | nil =>
    simp only [containsTablePattern, Bool.false_eq_true, false_iff,
      not_exists]
    rintro a q ⟨heq, ht⟩
    have : q = [] := (List.append_eq_nil.mp heq.symm).2
    rw [this] at ht
    exact absurd ht (by simp [tableAt])
  | cons c rest ih =>
    simp only [containsTablePattern, Bool.or_eq_true]
    constructor
    · rintro (h | h)
      · exact ⟨[], c :: rest, rfl, h⟩
      · obtain ⟨a, q, heq, ht⟩ := ih.mp h
        exact ⟨c :: a, q, by rw [heq]; rfl, ht⟩
    · rintro ⟨a, q, heq, ht⟩
      cases a with
      | nil =>
        left
        rw [List.nil_append] at heq
        rw [heq]
        exact ht
      | cons a0 a' =>
        right
        rw [List.cons_append] at heq
        injection heq with h1 h2
        exact ih.mpr ⟨a', q, h2, ht⟩

/-- The source's `shouldUseCard` decides exactly the disjunction the
spec words: a paired fenced code block or a markdown-style table. -/
theorem shouldUseCard_iff (s : String) :
    shouldUseCard s = true ↔ SpecFencedCode s ∨ SpecMarkdownTable s := by
  unfold shouldUseCard SpecFencedCode SpecMarkdownTable
  rw [Bool.or_eq_true, containsFencedCode_iff, containsTablePattern_iff]
  constructor
  · rintro (h | ⟨a, q, heq, ht⟩)
    · exact Or.inl h
    · obtain ⟨x, n, sep, r, hq, hx, hall, hn, hnall, hsepne, hsall⟩ :=
        (tableAt_iff _).mp ht
      exact Or.inr ⟨a, x, n, sep, r, by rw [heq, hq], hx, hall, hn,
        hnall, hsepne, hsall⟩
  · rintro (h | ⟨a, x, n, sep, r, heq, hx, hall, hn, hnall, hsepne, hsall⟩)
    · exact Or.inl h
    · exact Or.inr ⟨a, _, heq, (tableAt_iff _).mpr
        ⟨x, n, sep, r, rfl, hx, hall, hn, hnall, hsepne, hsall⟩⟩

/-- C7.  For every final text: configured mode `card` (the rich mode)
always selects card rendering, configured mode `raw` (the plain mode)
always selects plain rendering, and mode `auto` selects card rendering
if and only if the text contains a paired fenced code block or a
markdown table — a pipe-delimited row immediately followed, across a
line break, by a separator row of dashes/colons/pipes/spaces.  The
decision `useCardFor` is a pure function of the text and the configured
mode. -/
theorem c7_render_mode (t : String) :
    useCardFor "card" t = true ∧ useCardFor "raw" t = false ∧
      (useCardFor "auto" t = true ↔
        SpecFencedCode t ∨ SpecMarkdownTable t) := by
  refine ⟨rfl, rfl, ?_⟩
  rw [← shouldUseCard_iff]
  simp [useCardFor]

end Feishu
